import Mathlib

/-!
Shallow embedding of `tools/coin_gen.py`: the coin-definition validation and
signed-artifact generation pipeline.  Pure Python functions become Lean
functions; Python exceptions become `Except`; the optional third-party
libraries (PIL, zlib, ed25519, hashlib, trezorlib.protobuf) and the registry
loader `coin_info` are modelled as explicit function parameters, since their
code is outside this repository.  Console output is modelled as a list of
`Msg` values, in emission order.
-/

set_option autoImplicit false

/-- A Python value as it occurs in coin records and protobuf fields. -/
inductive PyVal where
  | str (s : String)
  | bytes (b : List Nat)
  | num (n : Int)
  | boolean (b : Bool)
  | list (l : List PyVal)

/-- Python exceptions that the embedded code can raise. -/
inductive Err where
  | attributeError
  | typeError
  | binasciiError
  | imageError
deriving DecidableEq

/-- One line of console output of the validation functions.  The constructor
records the severity and which branch of the source printed it. -/
inductive Msg where
  | errInvalidSupport (key : String)
  | errMissingSupport (key : String)
  | warnMissingSupport (key : String)
  | errUnknownSupport (key : String)
  | infoOverride (key : String)
  | errInvalidBtc (name : String)
  | warnCollision (field : String)
deriving DecidableEq

/-- A coin record from the registry: the fields `key`, `name` and `icon` are
always present (guaranteed by the registry loader), all other fields are
reached through `coin.get(fname)`, modelled by `get`. -/
structure CoinRec where
  key : String
  name : String
  icon : String
  get : String → Option PyVal

/-- The registry object returned by `coin_info.get_all()`: the bitcoin-like
`coins` list, the `misc` list, and `as_list()` (the concatenation of every
category, which may contain more than `coins + misc`); `as_list` is kept as
supplied data because its construction lives in `coin_info`, outside this
file's source. -/
structure Defs where
  coins : List CoinRec
  misc : List CoinRec
  asList : List CoinRec

/-- The set `expected_coins = set(coin["key"] for coin in defs.coins + defs.misc)`. -/
def expectedCoins (defs : Defs) : List String :=
  (defs.coins ++ defs.misc).map CoinRec.key

/-- The set `coin_set = set(coin["key"] for coin in coin_list)` where
`coin_list = defs.as_list()`. -/
def coinSet (defs : Defs) : List String :=
  defs.asList.map CoinRec.key

/-- First loop of `check_support`: structural validation of every support
entry via `coin_info.validate_support` (a parameter, since `coin_info` is
outside the source file). -/
def supportLoop1 {σ : Type} (validate : σ → List String) :
    List (String × σ) → Bool × List Msg
  | [] => (true, [])
  | (k, s) :: rest =>
    let r := supportLoop1 validate rest
    if validate s = [] then r else (false, Msg.errInvalidSupport k :: r.2)

/-- Second loop of `check_support`: for every expected coin missing from the
support data, a hard error when `fail_missing` is set, otherwise a warning. -/
def supportLoop2 (supportKeys : List String) (failMissing : Bool) :
    List String → Bool × List Msg
  | [] => (true, [])
  | c :: rest =>
    let r := supportLoop2 supportKeys failMissing rest
    if c ∈ supportKeys then r
    else if failMissing then (false, Msg.errMissingSupport c :: r.2)
    else (r.1, Msg.warnMissingSupport c :: r.2)

/-- Third loop of `check_support`: support keys outside `coin_set` are hard
errors; support keys outside `expected_coins` additionally print an
informational override note (which never fails the check). -/
def supportLoop3 (cs expected : List String) : List String → Bool × List Msg
  | [] => (true, [])
  | k :: rest =>
    let r := supportLoop3 cs expected rest
    let ms := if k ∈ expected then r.2 else Msg.infoOverride k :: r.2
    if k ∈ cs then (r.1, ms) else (false, Msg.errUnknownSupport k :: ms)

/-- `check_support(defs, support_data, fail_missing)`: `check_passed` starts
`True` and is cleared by any of the three loops; messages are emitted in
source order. -/
def check_support {σ : Type} (validate : σ → List String) (defs : Defs)
    (supportData : List (String × σ)) (failMissing : Bool) : Bool × List Msg :=
  let l1 := supportLoop1 validate supportData
  let l2 := supportLoop2 (supportData.map Prod.fst) failMissing (expectedCoins defs)
  let l3 := supportLoop3 (coinSet defs) (expectedCoins defs) (supportData.map Prod.fst)
  (l1.1 && l2.1 && l3.1, l1.2 ++ l2.2 ++ l3.2)

theorem supportLoop1_passed {σ : Type} (validate : σ → List String) :
    ∀ l : List (String × σ),
      (supportLoop1 validate l).1 = true ↔ ∀ p ∈ l, validate p.2 = [] := by
  intro l
  induction l with
  | nil => simp [supportLoop1]
  | cons p rest ih =>
    obtain ⟨k, s⟩ := p
    by_cases h : validate s = [] <;> simp [supportLoop1, h, ih]

theorem supportLoop2_passed (supportKeys : List String) (failMissing : Bool) :
    ∀ l : List String,
      (supportLoop2 supportKeys failMissing l).1 = true ↔
        (failMissing = true → ∀ c ∈ l, c ∈ supportKeys) := by
  intro l
  induction l with
  | nil => simp [supportLoop2]
  | cons c rest ih =>
    by_cases h : c ∈ supportKeys
    · simp [supportLoop2, h, ih]
    · cases failMissing <;> simp [supportLoop2, h, ih]

theorem supportLoop3_passed (cs expected : List String) :
    ∀ l : List String,
      (supportLoop3 cs expected l).1 = true ↔ ∀ k ∈ l, k ∈ cs := by
  intro l
  induction l with
  | nil => simp [supportLoop3]
  | cons k rest ih =>
    by_cases h : k ∈ cs <;> simp [supportLoop3, h, ih]

theorem supportLoop1_msgs_eq {σ : Type} (validate : σ → List String) :
    ∀ l : List (String × σ),
      (supportLoop1 validate l).2 =
        l.flatMap (fun p =>
          if validate p.2 = [] then [] else [Msg.errInvalidSupport p.1]) := by
  intro l
  induction l with
  | nil => simp [supportLoop1]
  | cons p rest ih =>
    obtain ⟨k, s⟩ := p
    by_cases h : validate s = [] <;> simp [supportLoop1, h, ih]

theorem supportLoop2_msgs_eq (supportKeys : List String) (failMissing : Bool) :
    ∀ l : List String,
      (supportLoop2 supportKeys failMissing l).2 =
        l.flatMap (fun c =>
          if c ∈ supportKeys then []
          else if failMissing then [Msg.errMissingSupport c]
          else [Msg.warnMissingSupport c]) := by
  intro l
  induction l with
  | nil => simp [supportLoop2]
  | cons c rest ih =>
    by_cases h : c ∈ supportKeys
    · simp [supportLoop2, h, ih]
    · cases failMissing <;> simp [supportLoop2, h, ih]

theorem supportLoop3_msgs_eq (cs expected : List String) :
    ∀ l : List String,
      (supportLoop3 cs expected l).2 =
        l.flatMap (fun k =>
          (if k ∈ cs then [] else [Msg.errUnknownSupport k]) ++
          (if k ∈ expected then [] else [Msg.infoOverride k])) := by
  intro l
  induction l with
  | nil => simp [supportLoop3]
  | cons k rest ih =>
    by_cases hcs : k ∈ cs <;> by_cases hex : k ∈ expected <;>
      simp [supportLoop3, hcs, hex, ih]

theorem supportLoop3_unknown_iff (cs expected : List String) (l : List String)
    (k : String) :
    Msg.errUnknownSupport k ∈ (supportLoop3 cs expected l).2 ↔
      k ∈ l ∧ k ∉ cs := by
  rw [supportLoop3_msgs_eq]
  simp only [List.mem_flatMap]
  constructor
  · rintro ⟨k', hk', hmem⟩
    rcases List.mem_append.mp hmem with h | h <;> split_ifs at h <;>
      simp_all
  · rintro ⟨hk, hkcs⟩
    exact ⟨k, hk, by simp [hkcs]⟩

theorem supportLoop3_override_iff (cs expected : List String) (l : List String)
    (k : String) :
    Msg.infoOverride k ∈ (supportLoop3 cs expected l).2 ↔
      k ∈ l ∧ k ∉ expected := by
  rw [supportLoop3_msgs_eq]
  simp only [List.mem_flatMap]
  constructor
  · rintro ⟨k', hk', hmem⟩
    rcases List.mem_append.mp hmem with h | h <;> split_ifs at h <;>
      simp_all
  · rintro ⟨hk, hkex⟩
    exact ⟨k, hk, by simp [hkex]⟩

theorem bool_eq_of_iff {a b : Bool} (h : a = true ↔ b = true) : a = b := by
  cases a <;> cases b <;> simp_all

/-- C6: a key present in the support data but absent from `expected_keys`
(the union of bitcoin-like and misc coin keys) and not covered by the
override rule (i.e. also absent from the full coin list) makes
`check_support` record the unknown-coin hard error and return `False`. -/
theorem C6_unknown_support_key_hard_error {σ : Type} (validate : σ → List String)
    (defs : Defs) (supportData : List (String × σ)) (failMissing : Bool)
    (k : String) (hk : k ∈ supportData.map Prod.fst)
    (hnexp : k ∉ expectedCoins defs) (hnover : k ∉ coinSet defs) :
    (check_support validate defs supportData failMissing).1 = false ∧
      Msg.errUnknownSupport k ∈
        (check_support validate defs supportData failMissing).2 := by
  constructor
  · have h3 : (supportLoop3 (coinSet defs) (expectedCoins defs)
        (supportData.map Prod.fst)).1 = false := by
      rcases h : (supportLoop3 (coinSet defs) (expectedCoins defs)
          (supportData.map Prod.fst)).1 with _ | _
      · rfl
      · exact absurd (((supportLoop3_passed _ _ _).mp h) k hk) hnover
    simp [check_support, h3]
  · have h3 := (supportLoop3_unknown_iff (coinSet defs) (expectedCoins defs)
      (supportData.map Prod.fst) k).mpr ⟨hk, hnover⟩
    simp [check_support]
    tauto

def wCoinBtc : CoinRec := ⟨"btc", "Bitcoin", "btc.png", fun _ => none⟩

def wCoinEth : CoinRec := ⟨"eth", "Ethereum", "eth.png", fun _ => none⟩

def wDefs : Defs := ⟨[wCoinBtc], [], [wCoinBtc, wCoinEth]⟩

theorem C6_witness :
    (check_support (fun _ : Unit => []) wDefs [("doge", ())] false).1 = false ∧
      Msg.errUnknownSupport "doge" ∈
        (check_support (fun _ : Unit => []) wDefs [("doge", ())] false).2 :=
  C6_unknown_support_key_hard_error (fun _ : Unit => []) wDefs [("doge", ())]
    false "doge" (by simp) (by simp [expectedCoins, wDefs, wCoinBtc])
    (by simp [coinSet, wDefs, wCoinBtc, wCoinEth])

/-- C7: a support key outside `expected_keys` that is an override (it appears
in the full coin list) only adds the informational override note: no error
message mentions it and the pass/fail result of `check_support` is the same
as on the support data without that entry (assuming the entry itself is
structurally valid). -/
theorem C7_override_is_informational_only {σ : Type} (validate : σ → List String)
    (defs : Defs) (k : String) (s : σ) (rest : List (String × σ))
    (failMissing : Bool) (hover : k ∈ coinSet defs)
    (hnexp : k ∉ expectedCoins defs) (hvalid : validate s = [])
    (hfresh : k ∉ rest.map Prod.fst) :
    (check_support validate defs ((k, s) :: rest) failMissing).1 =
      (check_support validate defs rest failMissing).1 ∧
    Msg.infoOverride k ∈ (check_support validate defs ((k, s) :: rest) failMissing).2 ∧
    Msg.errUnknownSupport k ∉ (check_support validate defs ((k, s) :: rest) failMissing).2 ∧
    Msg.errInvalidSupport k ∉ (check_support validate defs ((k, s) :: rest) failMissing).2 ∧
    Msg.errMissingSupport k ∉ (check_support validate defs ((k, s) :: rest) failMissing).2 := by
  have h1 : supportLoop1 validate ((k, s) :: rest) = supportLoop1 validate rest := by
    simp [supportLoop1, hvalid]
  have h2 : (supportLoop2 (((k, s) :: rest).map Prod.fst) failMissing
      (expectedCoins defs)).1 =
      (supportLoop2 (rest.map Prod.fst) failMissing (expectedCoins defs)).1 := by
    apply bool_eq_of_iff
    rw [supportLoop2_passed, supportLoop2_passed]
    constructor
    · intro h hf c hc
      rcases List.mem_cons.mp (h hf c hc) with heq | hm
      · subst heq
        exact absurd hc hnexp
      · exact hm
    · intro h hf c hc
      exact List.mem_cons_of_mem _ (h hf c hc)
  have h3 : (supportLoop3 (coinSet defs) (expectedCoins defs)
      (((k, s) :: rest).map Prod.fst)).1 =
      (supportLoop3 (coinSet defs) (expectedCoins defs) (rest.map Prod.fst)).1 := by
    apply bool_eq_of_iff
    rw [supportLoop3_passed, supportLoop3_passed]
    constructor
    · intro h c hc
      exact h c (List.mem_cons_of_mem _ hc)
    · intro h c hc
      rcases List.mem_cons.mp hc with heq | hm
      · subst heq
        exact hover
      · exact h c hm
  refine ⟨?_, ?_, ?_, ?_, ?_⟩
  · simp only [check_support, h1, h2, h3]
  · have := (supportLoop3_override_iff (coinSet defs) (expectedCoins defs)
      (((k, s) :: rest).map Prod.fst) k).mpr ⟨by simp, hnexp⟩
    simp [check_support]
    tauto
  · rw [check_support]
    simp only [List.mem_append, not_or]
    refine ⟨⟨?_, ?_⟩, ?_⟩
    · rw [supportLoop1_msgs_eq]
      simp only [List.mem_flatMap]
      rintro ⟨p, hp, hmem⟩
      split_ifs at hmem <;> simp_all
    · rw [supportLoop2_msgs_eq]
      simp only [List.mem_flatMap]
      rintro ⟨c, hc, hmem⟩
      split_ifs at hmem <;> simp_all
    · rw [supportLoop3_unknown_iff]
      rintro ⟨-, habs⟩
      exact habs hover
  · rw [check_support]
    simp only [List.mem_append, not_or]
    refine ⟨⟨?_, ?_⟩, ?_⟩
    · rw [supportLoop1_msgs_eq]
      simp only [List.mem_flatMap]
      rintro ⟨p, hp, hmem⟩
      split_ifs at hmem with hv
      · simp_all
      · simp only [List.mem_singleton, Msg.errInvalidSupport.injEq] at hmem
        rcases List.mem_cons.mp hp with heq | hp'
        · subst heq
          exact hv hvalid
        · refine absurd ?_ hfresh
          rw [hmem]
          exact List.mem_map.mpr ⟨p, hp', rfl⟩
    · rw [supportLoop2_msgs_eq]
      simp only [List.mem_flatMap]
      rintro ⟨c, hc, hmem⟩
      split_ifs at hmem <;> simp_all
    · rw [supportLoop3_msgs_eq]
      simp only [List.mem_flatMap]
      rintro ⟨c, hc, hmem⟩
      rcases List.mem_append.mp hmem with h | h <;> split_ifs at h <;> simp_all
  · rw [check_support]
    simp only [List.mem_append, not_or]
    refine ⟨⟨?_, ?_⟩, ?_⟩
    · rw [supportLoop1_msgs_eq]
      simp only [List.mem_flatMap]
      rintro ⟨p, hp, hmem⟩
      split_ifs at hmem <;> simp_all
    · rw [supportLoop2_msgs_eq]
      simp only [List.mem_flatMap]
      rintro ⟨c, hc, hmem⟩
      split_ifs at hmem with hin hf <;> simp_all
    · rw [supportLoop3_msgs_eq]
      simp only [List.mem_flatMap]
      rintro ⟨c, hc, hmem⟩
      rcases List.mem_append.mp hmem with h | h <;> split_ifs at h <;> simp_all

theorem C7_witness :
    (check_support (fun _ : Unit => []) wDefs [("eth", ()), ("btc", ())] false).1 =
      (check_support (fun _ : Unit => []) wDefs [("btc", ())] false).1 ∧
    Msg.infoOverride "eth" ∈
      (check_support (fun _ : Unit => []) wDefs [("eth", ()), ("btc", ())] false).2 ∧
    Msg.errUnknownSupport "eth" ∉
      (check_support (fun _ : Unit => []) wDefs [("eth", ()), ("btc", ())] false).2 ∧
    Msg.errInvalidSupport "eth" ∉
      (check_support (fun _ : Unit => []) wDefs [("eth", ()), ("btc", ())] false).2 ∧
    Msg.errMissingSupport "eth" ∉
      (check_support (fun _ : Unit => []) wDefs [("eth", ()), ("btc", ())] false).2 :=
  C7_override_is_informational_only (fun _ : Unit => []) wDefs "eth" ()
    [("btc", ())] false (by simp [coinSet, wDefs, wCoinBtc, wCoinEth])
    (by simp [expectedCoins, wDefs, wCoinBtc]) rfl (by simp)

/-- C8: a key in `expected_keys` with no support entry is a hard error that
fails `check_support` when `fail_missing` is set; with the flag unset it only
produces a warning and, in the absence of any other finding (all support
entries structurally valid and all support keys known), the check passes. -/
theorem C8_missing_support_strictness_flag {σ : Type} (validate : σ → List String)
    (defs : Defs) (supportData : List (String × σ)) (c : String)
    (hc : c ∈ expectedCoins defs) (hmiss : c ∉ supportData.map Prod.fst)
    (hvalid : ∀ p ∈ supportData, validate p.2 = [])
    (hknown : ∀ k ∈ supportData.map Prod.fst, k ∈ coinSet defs) :
    (check_support validate defs supportData true).1 = false ∧
    Msg.errMissingSupport c ∈ (check_support validate defs supportData true).2 ∧
    (check_support validate defs supportData false).1 = true ∧
    Msg.warnMissingSupport c ∈ (check_support validate defs supportData false).2 := by
  refine ⟨?_, ?_, ?_, ?_⟩
  · have h2 : (supportLoop2 (supportData.map Prod.fst) true (expectedCoins defs)).1 = false := by
      rcases h : (supportLoop2 (supportData.map Prod.fst) true (expectedCoins defs)).1 with _ | _
      · rfl
      · exact absurd (((supportLoop2_passed _ _ _).mp h) rfl c hc) hmiss
    simp [check_support, h2]
  · rw [check_support]
    simp only [List.mem_append]
    refine Or.inl (Or.inr ?_)
    rw [supportLoop2_msgs_eq]
    exact List.mem_flatMap.mpr ⟨c, hc, by simp [hmiss]⟩
  · have h1 : (supportLoop1 validate supportData).1 = true :=
      (supportLoop1_passed _ _).mpr hvalid
    have h2 : (supportLoop2 (supportData.map Prod.fst) false (expectedCoins defs)).1 = true :=
      (supportLoop2_passed _ _ _).mpr (by intro h; cases h)
    have h3 : (supportLoop3 (coinSet defs) (expectedCoins defs)
        (supportData.map Prod.fst)).1 = true :=
      (supportLoop3_passed _ _ _).mpr hknown
    simp [check_support, h1, h2, h3]
  · rw [check_support]
    simp only [List.mem_append]
    refine Or.inl (Or.inr ?_)
    rw [supportLoop2_msgs_eq]
    exact List.mem_flatMap.mpr ⟨c, hc, by simp [hmiss]⟩

theorem C8_witness :
    (check_support (fun _ : Unit => []) wDefs [] true).1 = false ∧
    Msg.errMissingSupport "btc" ∈ (check_support (fun _ : Unit => []) wDefs [] true).2 ∧
    (check_support (fun _ : Unit => []) wDefs [] false).1 = true ∧
    Msg.warnMissingSupport "btc" ∈ (check_support (fun _ : Unit => []) wDefs [] false).2 :=
  C8_missing_support_strictness_flag (fun _ : Unit => []) wDefs [] "btc"
    (by simp [expectedCoins, wDefs, wCoinBtc]) (by simp) (by simp) (by simp)

/-- Python `s.encode("utf-8")` as a list of byte values. -/
def utf8Bytes (s : String) : List Nat :=
  s.toUTF8.toList.map UInt8.toNat

/-- Value of one hex digit, accepting the digits `binascii.unhexlify` accepts. -/
def hexDigitVal (c : Char) : Option Nat :=
  if 48 ≤ c.toNat ∧ c.toNat ≤ 57 then some (c.toNat - 48)
  else if 97 ≤ c.toNat ∧ c.toNat ≤ 102 then some (c.toNat - 87)
  else if 65 ≤ c.toNat ∧ c.toNat ≤ 70 then some (c.toNat - 55)
  else none

/-- `binascii.unhexlify` on a character list; odd length or a non-hex digit
raises `binascii.Error`. -/
def unhexlifyChars : List Char → Except Err (List Nat)
  | [] => Except.ok []
  | [_] => Except.error Err.binasciiError
  | c1 :: c2 :: rest =>
    match hexDigitVal c1, hexDigitVal c2 with
    | some hi, some lo => (unhexlifyChars rest).map (fun bs => (16 * hi + lo) :: bs)
    | _, _ => Except.error Err.binasciiError

/-- `binascii.unhexlify` on a string. -/
def unhexlify (s : String) : Except Err (List Nat) :=
  unhexlifyChars s.data

/-- The body of the per-field branch chain of `coindef_from_dict`:
`val = coin.get(fname)`; a missing value for a repeated field becomes the
empty list; the `signed_message_header` value is utf-8 encoded (raising
`AttributeError` when it is not a string, in particular when it is missing);
the `hash_genesis_block` value is hex-decoded (raising `TypeError` when it is
not a string, in particular when it is missing); every other value is passed
through unchanged. -/
def coerceField (fname : String) (repeated : Bool) (val : Option PyVal) :
    Except Err (Option PyVal) :=
  if val.isNone && repeated then Except.ok (some (PyVal.list []))
  else if fname = "signed_message_header" then
    match val with
    | some (PyVal.str s) => Except.ok (some (PyVal.bytes (utf8Bytes s)))
    | _ => Except.error Err.attributeError
  else if fname = "hash_genesis_block" then
    match val with
    | some (PyVal.str s) => (unhexlify s).map (fun b => some (PyVal.bytes b))
    | _ => Except.error Err.typeError
  else Except.ok val

/-- A protobuf message object: the mapping from field name to the value set
by `setattr` (`none` = never assigned, `some none` = assigned `None`). -/
def Proto : Type := String → Option (Option PyVal)

/-- `setattr(proto, name, v)`. -/
def setAttr (p : Proto) (name : String) (v : Option PyVal) : Proto :=
  fun n => if n = name then some v else p n

/-- A freshly constructed `CoinDef()` message with no field assigned yet. -/
def emptyProto : Proto := fun _ => none

/-- `coindef_from_dict(coin)`: fold the field coercion over `CoinDef.FIELDS`
(the schema, a list of field names with their repeated flag, supplied as a
parameter because the `coindef` module is outside this source file), setting
each coerced value on the message in schema order. -/
def coindef_from_dict (FIELDS : List (String × Bool))
    (coin : String → Option PyVal) : Except Err Proto :=
  FIELDS.foldlM
    (fun proto fld =>
      (coerceField fld.1 fld.2 (coin fld.1)).map (fun v => setAttr proto fld.1 v))
    emptyProto

/-- `serialize_coindef(proto, icon)`: set the icon bytes on the message last,
then dump it with `trezorlib.protobuf.dump_message` (a parameter: the wire
writer lives in trezorlib). -/
def serialize_coindef (dump : Proto → List Nat) (proto : Proto)
    (icon : List Nat) : List Nat :=
  dump (setAttr proto "icon" (some (PyVal.bytes icon)))

/-- The fixed placeholder signing key `b"A" * 32`. -/
def signKeyBytes : List Nat := List.replicate 32 65

/-- `sign(data)`: SHA-256 digest of the data, then a detached ed25519
signature over the digest with the fixed key; `sha` and `ed` are parameters
standing for `hashlib.sha256(.).digest()` and
`ed25519.SigningKey(key).sign(.)`. -/
def sign (ed : List Nat → List Nat → List Nat) (sha : List Nat → List Nat)
    (data : List Nat) : List Nat :=
  ed signKeyBytes (sha data)

/-- One lowercase hex digit, as produced by `binascii.hexlify`. -/
def hexChar (n : Nat) : Char :=
  if n < 10 then Char.ofNat (48 + n) else Char.ofNat (87 + n)

/-- `binascii.hexlify(bs).decode("ascii")`: two lowercase hex digits per
byte, in byte order. -/
def hexlify (bs : List Nat) : List Char :=
  bs.flatMap (fun b => [hexChar (b / 16), hexChar (b % 16)])

/-- `hexlify` packaged as a Lean string. -/
def hexlifyStr (bs : List Nat) : String :=
  String.mk (hexlify bs)

/-- An RGBA pixel; PIL stores each channel as one byte. -/
structure Pixel where
  r : Fin 256
  g : Fin 256
  b : Fin 256
  a : Fin 256

/-- A decoded pixel grid, as exposed by `icon.load()`. -/
def PixMap : Type := Nat → Nat → Pixel

/-- The PIL resampling filters relevant to `convert_icon`. -/
inductive ResampleFilter where
  | lanczos
  | nearest

/-- The external image and compression primitives used by `convert_icon`:
`resize img (w, h) filter` is PIL `img.resize((w, h), filter)` followed by
`.load()`; `alphaComposite bg fg` is PIL per-pixel `Image.alpha_composite`;
`compress level wbits data` is `zlib.compressobj(level=level, wbits=wbits)`
run as `compress(data) + flush()`. -/
structure IconLibs (Img : Type) where
  resize : Img → Nat × Nat → ResampleFilter → PixMap
  alphaComposite : Pixel → Pixel → Pixel
  compress : Nat → Int → List Nat → List Nat

/-- The fixed icon dimension `DIM = 32`. -/
def DIM : Nat := 32

/-- The opaque black background pixel `(0, 0, 0, 255)`. -/
def blackOpaque : Pixel := ⟨0, 0, 0, 255⟩

/-- The pixel quantization `((r & 0xF8) << 8) | ((g & 0xFC) << 3) | ((b & 0xF8) >> 3)`. -/
def quant565 (r g b : Nat) : Nat :=
  ((r &&& 0xF8) <<< 8) ||| ((g &&& 0xFC) <<< 3) ||| ((b &&& 0xF8) >>> 3)

/-- `struct.pack(">H", c)` for `c < 65536`: big-endian, high byte first. -/
def packBE16 (c : Nat) : List Nat := [c / 256, c % 256]

/-- The 2048-byte buffer built by the nested `for y ... for x ...` loops:
row-major (y outer, x inner), two bytes per pixel. -/
def iconPixelData (pix : PixMap) : List Nat :=
  (List.range DIM).flatMap (fun y =>
    (List.range DIM).flatMap (fun x =>
      let p := pix x y
      packBE16 (quant565 p.r.val p.g.val p.b.val)))

/-- The slice `zdata[2:-4]`: drop the 2 zlib header bytes and the 4 trailing
adler32 checksum bytes. -/
def stripZlib (z : List Nat) : List Nat :=
  (z.take (z.length - 4)).drop 2

/-- `convert_icon(icon)`: resize to 32 x 32 with LANCZOS, alpha-composite
every pixel onto opaque black, quantize and pack the pixels, compress with
`zlib.compressobj(level=9, wbits=10)` and strip header and checksum. -/
def convert_icon {Img : Type} (L : IconLibs Img) (icon : Img) : List Nat :=
  let resized := L.resize icon (DIM, DIM) ResampleFilter.lanczos
  let composited : PixMap := fun x y => L.alphaComposite blackOpaque (resized x y)
  let data := iconPixelData composited
  stripZlib (L.compress 9 10 data)

/-- Everything the `coindefs` command path takes from outside the source
file: the image/compression primitives, `Image.open` (which raises on an
unreadable file), the protobuf wire writer, the hash and signature
primitives, and the `CoinDef.FIELDS` schema. -/
structure Env (Img : Type) where
  icon : IconLibs Img
  openImage : String → Except Err Img
  dump : Proto → List Nat
  sha : List Nat → List Nat
  ed : List Nat → List Nat → List Nat
  FIELDS : List (String × Bool)

/-- The body of the `coindefs` loop for one coin: open the icon, build and
serialize the definition, sign it, and hex-encode `sig + ser`; any failure
propagates as the raised exception. -/
def processCoin {Img : Type} (E : Env Img) (coin : CoinRec) :
    Except Err (String × String) :=
  match E.openImage coin.icon with
  | Except.error e => Except.error e
  | Except.ok img =>
    match coindef_from_dict E.FIELDS coin.get with
    | Except.error e => Except.error e
    | Except.ok proto =>
      let ser := serialize_coindef E.dump proto (convert_icon E.icon img)
      let sig := sign E.ed E.sha ser
      Except.ok (coin.key, hexlifyStr (sig ++ ser))

/-- The `for coin in coins` loop of the `coindefs` command.  The source has
no `try`, so the first exception aborts the whole loop and nothing is
written. -/
def coindefsLoop {Img : Type} (E : Env Img) :
    List CoinRec → Except Err (List (String × String))
  | [] => Except.ok []
  | c :: rest =>
    match processCoin E c with
    | Except.error e => Except.error e
    | Except.ok entry =>
      match coindefsLoop E rest with
      | Except.error e => Except.error e
      | Except.ok others => Except.ok (entry :: others)

/-- Outcome of running one click command. -/
inductive CmdOutcome where
  | refusedUpfront
  | completed
  | crashedAfterWork
deriving DecidableEq

/-- The `render` command: it refuses upfront with a `ClickException` when
mako/munch are unavailable (`CAN_RENDER` false), otherwise it runs (the
template work itself is outside the claims and abstracted as completing). -/
def renderCmd (canRender : Bool) : CmdOutcome :=
  if !canRender then CmdOutcome.refusedUpfront else CmdOutcome.completed

/-- The `coindefs` command as written in the source: it never consults
`CAN_BUILD_DEFS`; it first loads the whole registry, then the loop body
evaluates the names `Image`, `CoinDef`, ... from the failed import, so with
the libraries unavailable it raises `NameError` after that work whenever at
least one coin exists (with zero coins the loop body never runs and the
command completes, writing an empty mapping). -/
def coindefsCmd (canBuildDefs : Bool) (coins : List CoinRec) : CmdOutcome :=
  match coins with
  | [] => CmdOutcome.completed
  | _ :: _ => if canBuildDefs then CmdOutcome.completed else CmdOutcome.crashedAfterWork

/-- First loop of `check_btc`: `coin_info.validate_btc` (a parameter) over
every bitcoin-like coin, collecting an error line per invalid coin. -/
def btcLoop (validateBtc : CoinRec → List String) :
    List CoinRec → Bool × List Msg
  | [] => (true, [])
  | c :: rest =>
    let r := btcLoop validateBtc rest
    if validateBtc c = [] then r else (false, Msg.errInvalidBtc c.name :: r.2)

/-- The collision report of `coin_info.find_address_collisions`: per field
name, the list of colliding values with the keys sharing each value. -/
def CollisionData : Type := List (String × List (String × List String))

/-- The collision print loop of `check_btc`: one warning per field with a
non-empty duplicate set; it never touches `check_passed`. -/
def collisionWarnings : CollisionData → List Msg
  | [] => []
  | (f, dups) :: rest =>
    if dups.isEmpty then collisionWarnings rest
    else Msg.warnCollision f :: collisionWarnings rest

/-- `check_btc(coins)`: per-coin validation, then collision warnings;
`check_passed` only reflects the validation loop. -/
def check_btc (validateBtc : CoinRec → List String)
    (findCollisions : List CoinRec → CollisionData)
    (coins : List CoinRec) : Bool × List Msg :=
  let l := btcLoop validateBtc coins
  (l.1, l.2 ++ collisionWarnings (findCollisions coins))

/-- The `check` command: refuse upfront when `--backend-check` is requested
but `requests` is unavailable; otherwise run `check_btc`, `check_support`
and (only with `--backend-check`) `check_backends` (a parameter: it performs
network calls), and exit 1 exactly when some check failed.  The returned
pair is (exit status, console messages). -/
def checkCmd {σ : Type} (validateBtc : CoinRec → List String)
    (findCollisions : List CoinRec → CollisionData)
    (validateSupport : σ → List String)
    (checkBackends : List CoinRec → Bool)
    (defs : Defs) (supportData : List (String × σ))
    (checkMissingSupport backendCheck requestsAvailable : Bool) :
    Except CmdOutcome (Nat × List Msg) :=
  if backendCheck && !requestsAvailable then Except.error CmdOutcome.refusedUpfront
  else
    let b := check_btc validateBtc findCollisions defs.coins
    let s := check_support validateSupport defs supportData checkMissingSupport
    let k := if backendCheck then checkBackends defs.coins else true
    let allPassed := b.1 && s.1 && k
    Except.ok (if allPassed then 0 else 1, b.2 ++ s.2)

/-- C1: whenever the artifact-generation path produces a definition for a
coin, that definition is the hex encoding of signature-then-payload, where
the payload is the serialized coin definition (with icon) and the signature
is the detached ed25519 signature, under the fixed key `b"A" * 32`, of the
SHA-256 digest of exactly the payload bytes. -/
theorem C1_signed_definition_layout {Img : Type} (E : Env Img) (coin : CoinRec)
    (kd : String × String) (h : processCoin E coin = Except.ok kd) :
    ∃ ser : List Nat,
      kd.2 = hexlifyStr (sign E.ed E.sha ser ++ ser) ∧
      sign E.ed E.sha ser = E.ed signKeyBytes (E.sha ser) ∧
      ∃ (img : Img) (proto : Proto),
        E.openImage coin.icon = Except.ok img ∧
        coindef_from_dict E.FIELDS coin.get = Except.ok proto ∧
        ser = serialize_coindef E.dump proto (convert_icon E.icon img) := by
  rw [processCoin] at h
  cases himg : E.openImage coin.icon with
  | error e => rw [himg] at h; cases h
  | ok img =>
    rw [himg] at h
    cases hproto : coindef_from_dict E.FIELDS coin.get with
    | error e => rw [hproto] at h; cases h
    | ok proto =>
      rw [hproto] at h
      simp only [Except.ok.injEq] at h
      subst h
      exact ⟨serialize_coindef E.dump proto (convert_icon E.icon img),
        rfl, rfl, img, proto, rfl, rfl, rfl⟩

def wIconLibs : IconLibs Unit :=
  { resize := fun _ _ _ => fun _ _ => blackOpaque
    alphaComposite := fun _ p => p
    compress := fun _ _ d => d }

def wEnv : Env Unit :=
  { icon := wIconLibs
    openImage := fun _ => Except.ok ()
    dump := fun _ => []
    sha := fun _ => []
    ed := fun _ _ => []
    FIELDS := [] }

theorem C1_witness :
    ∃ ser : List Nat,
      ("btc", "").2 = hexlifyStr (sign wEnv.ed wEnv.sha ser ++ ser) ∧
      sign wEnv.ed wEnv.sha ser = wEnv.ed signKeyBytes (wEnv.sha ser) ∧
      ∃ (img : Unit) (proto : Proto),
        wEnv.openImage wCoinBtc.icon = Except.ok img ∧
        coindef_from_dict wEnv.FIELDS wCoinBtc.get = Except.ok proto ∧
        ser = serialize_coindef wEnv.dump proto (convert_icon wEnv.icon img) :=
  C1_signed_definition_layout wEnv wCoinBtc ("btc", "") rfl

/-- The Definition Encoder of the claims: field coercion
(`coindef_from_dict`) followed by serialization with the icon attached
(`serialize_coindef`). -/
def encodePayload (FIELDS : List (String × Bool)) (dump : Proto → List Nat)
    (coin : String → Option PyVal) (icon : List Nat) : Except Err (List Nat) :=
  (coindef_from_dict FIELDS coin).map
    (fun proto => serialize_coindef dump proto icon)

theorem coindef_fold_congr (dump : Proto → List Nat)
    (coin1 coin2 : String → Option PyVal) :
    ∀ (FIELDS : List (String × Bool)),
      (∀ p ∈ FIELDS, coin1 p.1 = coin2 p.1) →
      ∀ proto : Proto,
        FIELDS.foldlM
          (fun proto fld =>
            (coerceField fld.1 fld.2 (coin1 fld.1)).map
              (fun v => setAttr proto fld.1 v)) proto =
        FIELDS.foldlM
          (fun proto fld =>
            (coerceField fld.1 fld.2 (coin2 fld.1)).map
              (fun v => setAttr proto fld.1 v)) proto := by
  intro FIELDS
  induction FIELDS with
  | nil => intro _ proto; rfl
  | cons fld rest ih =>
    intro hagree proto
    have hhd : coin1 fld.1 = coin2 fld.1 := hagree fld (List.mem_cons_self _ _)
    simp only [List.foldlM_cons, hhd]
    cases coerceField fld.1 fld.2 (coin2 fld.1) with
    | error e => rfl
    | ok v =>
      exact ih (fun p hp => hagree p (List.mem_cons_of_mem _ hp)) _

/-- C2: the Definition Encoder is deterministic: its payload bytes are a
function of the values the coin record holds at the schema's field names and
of the icon bytes alone.  In particular two runs on the same record and icon
give byte-identical payloads, and no nondeterministic field ordering or
padding exists. -/
theorem C2_encoder_deterministic (FIELDS : List (String × Bool))
    (dump : Proto → List Nat) (coin1 coin2 : String → Option PyVal)
    (icon : List Nat) (hagree : ∀ p ∈ FIELDS, coin1 p.1 = coin2 p.1) :
    encodePayload FIELDS dump coin1 icon = encodePayload FIELDS dump coin2 icon := by
  unfold encodePayload coindef_from_dict
  rw [coindef_fold_congr dump coin1 coin2 FIELDS hagree emptyProto]

theorem C2_witness :
    encodePayload [("signed_message_header", false)] (fun _ => [])
      (fun _ => some (PyVal.str "msg")) [7] =
    encodePayload [("signed_message_header", false)] (fun _ => [])
      (fun _ => some (PyVal.str "msg")) [7] :=
  C2_encoder_deterministic [("signed_message_header", false)] (fun _ => [])
    (fun _ => some (PyVal.str "msg")) (fun _ => some (PyVal.str "msg")) [7]
    (fun _ _ => rfl)

def wEnvFail : Env Unit :=
  { icon := wIconLibs
    openImage := fun p => if p = "bad.png" then Except.error Err.imageError else Except.ok ()
    dump := fun _ => []
    sha := fun _ => []
    ed := fun _ _ => []
    FIELDS := [] }

def wCoinBad : CoinRec := ⟨"bad", "Bad", "bad.png", fun _ => none⟩

/-- C3 counterexample: in the batch `[bad, btc]` the first coin's icon fails
to open and the second coin would process fine on its own, yet the loop's
result is the bare exception: no failure is recorded against the bad coin
and the remaining coin's definition appears nowhere, refuting the claim that
one coin's failure is recorded per-coin and the rest still processed. -/
theorem C3_counterexample :
    coindefsLoop wEnvFail [wCoinBad, wCoinBtc] = Except.error Err.imageError ∧
      processCoin wEnvFail wCoinBtc = Except.ok ("btc", "") := by
  constructor <;> rfl

/-- C3 amended: when processing one coin raises, the exception propagates
out of the `for` loop unchanged: the coins after it are never processed and
no definitions mapping is produced. -/
theorem C3_amended_failure_aborts_batch {Img : Type} (E : Env Img)
    (c : CoinRec) (rest : List CoinRec) (e : Err)
    (h : processCoin E c = Except.error e) :
    coindefsLoop E (c :: rest) = Except.error e := by
  rw [coindefsLoop, h]

theorem C3_witness :
    coindefsLoop wEnvFail [wCoinBad, wCoinBtc] = Except.error Err.imageError :=
  C3_amended_failure_aborts_batch wEnvFail wCoinBad [wCoinBtc] Err.imageError rfl

/-- C4 evidence: `render` and `check` guard their optional dependencies
upfront (`CAN_RENDER`, `requests`), but `coindefs` never consults
`CAN_BUILD_DEFS`: with the image/crypto libraries unavailable and a
non-empty registry it loads the registry and then crashes mid-loop
(`NameError` at `Image.open`) instead of refusing with a feature-unavailable
error. -/
theorem C4_coindefs_lacks_feature_guard :
    coindefsCmd false [wCoinBtc] = CmdOutcome.crashedAfterWork ∧
    coindefsCmd false [wCoinBtc] ≠ CmdOutcome.refusedUpfront ∧
    renderCmd false = CmdOutcome.refusedUpfront ∧
    checkCmd (fun _ => []) (fun _ => []) (fun _ : Unit => []) (fun _ => true)
        wDefs [] false true false =
      Except.error CmdOutcome.refusedUpfront := by
  refine ⟨rfl, ?_, rfl, rfl⟩
  intro h
  cases h

theorem btcLoop_passed (validateBtc : CoinRec → List String) :
    ∀ l : List CoinRec,
      (btcLoop validateBtc l).1 = true ↔ ∀ c ∈ l, validateBtc c = [] := by
  intro l
  induction l with
  | nil => simp [btcLoop]
  | cons c rest ih =>
    by_cases h : validateBtc c = [] <;> simp [btcLoop, h, ih]

theorem btcLoop_msgs_eq (validateBtc : CoinRec → List String) :
    ∀ l : List CoinRec,
      (btcLoop validateBtc l).2 =
        l.flatMap (fun c =>
          if validateBtc c = [] then [] else [Msg.errInvalidBtc c.name]) := by
  intro l
  induction l with
  | nil => simp [btcLoop]
  | cons c rest ih =>
    by_cases h : validateBtc c = [] <;> simp [btcLoop, h, ih]

theorem check_all_passed_iff {σ : Type} (validateBtc : CoinRec → List String)
    (findCollisions : List CoinRec → CollisionData)
    (validateSupport : σ → List String) (checkBackends : List CoinRec → Bool)
    (defs : Defs) (supportData : List (String × σ))
    (checkMissingSupport backendCheck : Bool) :
    ((check_btc validateBtc findCollisions defs.coins).1 &&
     (check_support validateSupport defs supportData checkMissingSupport).1 &&
     (if backendCheck then checkBackends defs.coins else true)) = true ↔
    ((∀ c ∈ defs.coins, validateBtc c = []) ∧
     (∀ p ∈ supportData, validateSupport p.2 = []) ∧
     (checkMissingSupport = true →
       ∀ c ∈ expectedCoins defs, c ∈ supportData.map Prod.fst) ∧
     (∀ k ∈ supportData.map Prod.fst, k ∈ coinSet defs) ∧
     (backendCheck = true → checkBackends defs.coins = true)) := by
  have hback : (if backendCheck then checkBackends defs.coins else true) = true ↔
      (backendCheck = true → checkBackends defs.coins = true) := by
    cases backendCheck <;> simp
  simp only [check_btc, check_support, Bool.and_eq_true]
  rw [btcLoop_passed, supportLoop1_passed, supportLoop2_passed,
    supportLoop3_passed, hback]
  tauto

/-- C5: with the upfront dependency guard satisfied, the `check` command
always returns (no exception), its exit status is 1 exactly when some hard
error exists (an invalid bitcoin-like coin, an invalid support entry, a
missing expected support entry under strict mode, an unknown support key, or
a failing backend under `--backend-check`) and 0 otherwise; every invalid
coin and every invalid support entry is reported (no early exit), and the
exit status is unchanged under any address-collision report whatsoever:
collisions are warnings only. -/
theorem C5_check_exit_nonzero_iff_hard_error {σ : Type}
    (validateBtc : CoinRec → List String)
    (findCollisions : List CoinRec → CollisionData)
    (validateSupport : σ → List String) (checkBackends : List CoinRec → Bool)
    (defs : Defs) (supportData : List (String × σ))
    (checkMissingSupport backendCheck requestsAvailable : Bool)
    (hguard : backendCheck = true → requestsAvailable = true) :
    ∃ (exitCode : Nat) (msgs : List Msg),
      checkCmd validateBtc findCollisions validateSupport checkBackends defs
        supportData checkMissingSupport backendCheck requestsAvailable =
        Except.ok (exitCode, msgs) ∧
      (exitCode = 1 ↔
        ((∃ c ∈ defs.coins, validateBtc c ≠ []) ∨
         (∃ p ∈ supportData, validateSupport p.2 ≠ []) ∨
         (checkMissingSupport = true ∧
           ∃ c ∈ expectedCoins defs, c ∉ supportData.map Prod.fst) ∨
         (∃ k ∈ supportData.map Prod.fst, k ∉ coinSet defs) ∨
         (backendCheck = true ∧ checkBackends defs.coins = false))) ∧
      (exitCode = 0 ∨ exitCode = 1) ∧
      (∀ c ∈ defs.coins, validateBtc c ≠ [] → Msg.errInvalidBtc c.name ∈ msgs) ∧
      (∀ p ∈ supportData, validateSupport p.2 ≠ [] →
        Msg.errInvalidSupport p.1 ∈ msgs) ∧
      (∀ fc : List CoinRec → CollisionData, ∃ msgs2 : List Msg,
        checkCmd validateBtc fc validateSupport checkBackends defs supportData
          checkMissingSupport backendCheck requestsAvailable =
          Except.ok (exitCode, msgs2)) := by
  classical
  have hg : (backendCheck && !requestsAvailable) = false := by
    cases hbc : backendCheck
    · rfl
    · rw [hguard hbc]; rfl
  have hall := check_all_passed_iff validateBtc findCollisions validateSupport
    checkBackends defs supportData checkMissingSupport backendCheck
  refine ⟨if ((check_btc validateBtc findCollisions defs.coins).1 &&
      (check_support validateSupport defs supportData checkMissingSupport).1 &&
      (if backendCheck then checkBackends defs.coins else true)) then 0 else 1,
    (check_btc validateBtc findCollisions defs.coins).2 ++
      (check_support validateSupport defs supportData checkMissingSupport).2,
    by simp [checkCmd, hg], ?_, ?_, ?_, ?_, ?_⟩
  · by_cases hAll : ((check_btc validateBtc findCollisions defs.coins).1 &&
        (check_support validateSupport defs supportData checkMissingSupport).1 &&
        (if backendCheck then checkBackends defs.coins else true)) = true
    · obtain ⟨hA, hB, hC, hD, hE⟩ := hall.mp hAll
      simp only [hAll, if_true]
      constructor
      · intro h; cases h
      · rintro (⟨c, hc, hne⟩ | ⟨p, hp, hne⟩ | ⟨hcm, c, hc, hnin⟩ |
          ⟨kk, hk, hnin⟩ | ⟨hbc, hkb⟩)
        · exact absurd (hA c hc) hne
        · exact absurd (hB p hp) hne
        · exact absurd (hC hcm c hc) hnin
        · exact absurd (hD kk hk) hnin
        · have := hE hbc
          rw [hkb] at this
          cases this
    · rw [if_neg hAll]
      simp only [true_iff]
      rcases Classical.em (∀ c ∈ defs.coins, validateBtc c = []) with hA | hA
      · rcases Classical.em (∀ p ∈ supportData, validateSupport p.2 = []) with hB | hB
        · rcases Classical.em (checkMissingSupport = true →
              ∀ c ∈ expectedCoins defs, c ∈ supportData.map Prod.fst) with hC | hC
          · rcases Classical.em (∀ k ∈ supportData.map Prod.fst,
                k ∈ coinSet defs) with hD | hD
            · rcases Classical.em (backendCheck = true →
                  checkBackends defs.coins = true) with hE | hE
              · exact absurd (hall.mpr ⟨hA, hB, hC, hD, hE⟩) hAll
              · push_neg at hE
                exact Or.inr (Or.inr (Or.inr (Or.inr
                  ⟨hE.1, Bool.not_eq_true _ ▸ hE.2⟩)))
            · push_neg at hD
              exact Or.inr (Or.inr (Or.inr (Or.inl hD)))
          · push_neg at hC
            exact Or.inr (Or.inr (Or.inl hC))
        · push_neg at hB
          exact Or.inr (Or.inl hB)
      · push_neg at hA
        exact Or.inl hA
  · by_cases hAll : ((check_btc validateBtc findCollisions defs.coins).1 &&
        (check_support validateSupport defs supportData checkMissingSupport).1 &&
        (if backendCheck then checkBackends defs.coins else true)) = true
    · rw [if_pos hAll]
      exact Or.inl rfl
    · rw [if_neg hAll]
      exact Or.inr rfl
  · intro c hc hne
    simp only [check_btc, List.mem_append]
    refine Or.inl (Or.inl ?_)
    rw [btcLoop_msgs_eq]
    exact List.mem_flatMap.mpr ⟨c, hc, by simp [hne]⟩
  · intro p hp hne
    simp only [check_btc, check_support, List.mem_append]
    refine Or.inr (Or.inl (Or.inl ?_))
    rw [supportLoop1_msgs_eq]
    exact List.mem_flatMap.mpr ⟨p, hp, by simp [hne]⟩
  · intro fc
    exact ⟨(check_btc validateBtc fc defs.coins).2 ++
      (check_support validateSupport defs supportData checkMissingSupport).2,
      by simp [checkCmd, hg, check_btc]⟩

theorem C5_witness :
    ∃ (exitCode : Nat) (msgs : List Msg),
      checkCmd (fun _ => ["bad"]) (fun _ => []) (fun _ : Unit => [])
          (fun _ => true) wDefs [] false false false =
        Except.ok (exitCode, msgs) ∧ exitCode = 1 := by
  obtain ⟨e, m, h1, h2, -, -, -, -⟩ :=
    C5_check_exit_nonzero_iff_hard_error (fun _ => ["bad"]) (fun _ => [])
      (fun _ : Unit => []) (fun _ => true) wDefs [] false false false
      (by intro h; cases h)
  exact ⟨e, m, h1, h2.mpr (Or.inl ⟨wCoinBtc, by simp [wDefs], by simp⟩)⟩

theorem coindef_fold_error (coin : String → Option PyVal) :
    ∀ (FIELDS : List (String × Bool)) (fld : String × Bool), fld ∈ FIELDS →
      (∃ e, coerceField fld.1 fld.2 (coin fld.1) = Except.error e) →
      ∀ proto : Proto, ∃ e,
        FIELDS.foldlM
          (fun proto fld =>
            (coerceField fld.1 fld.2 (coin fld.1)).map
              (fun v => setAttr proto fld.1 v)) proto = Except.error e := by
  intro FIELDS
  induction FIELDS with
  | nil => intro fld h; simp at h
  | cons hd rest ih =>
    intro fld hmem ⟨e, herr⟩ proto
    rcases List.mem_cons.mp hmem with heq | hmem'
    · subst heq
      refine ⟨e, ?_⟩
      simp only [List.foldlM_cons, herr, Except.map_error]
      rfl
    · cases hhd : coerceField hd.1 hd.2 (coin hd.1) with
      | error e2 =>
        refine ⟨e2, ?_⟩
        simp only [List.foldlM_cons, hhd, Except.map_error]
        rfl
      | ok v =>
        obtain ⟨e3, h3⟩ := ih fld hmem' ⟨e, herr⟩ (setAttr proto hd.1 v)
        refine ⟨e3, ?_⟩
        simp only [List.foldlM_cons, hhd, Except.map_ok]
        exact h3

/-- C10: the empty-sequence substitution of the field-coercion step fires
only for repeated fields; a missing non-repeated `signed_message_header`
raises `AttributeError` (`None.encode`), a missing non-repeated
`hash_genesis_block` raises `TypeError` (`unhexlify(None)`), and therefore
`coindef_from_dict` raises (is partial) on any record lacking a
non-repeated `signed_message_header`. -/
theorem C10_encoder_raises_on_missing_header :
    coerceField "signed_message_header" false none =
      Except.error Err.attributeError ∧
    coerceField "hash_genesis_block" false none = Except.error Err.typeError ∧
    (∀ fname : String,
      coerceField fname true none = Except.ok (some (PyVal.list []))) ∧
    (∀ (FIELDS : List (String × Bool)) (coin : String → Option PyVal),
      ("signed_message_header", false) ∈ FIELDS →
      coin "signed_message_header" = none →
      ∃ e, coindef_from_dict FIELDS coin = Except.error e) := by
  refine ⟨rfl, rfl, fun _ => rfl, ?_⟩
  intro FIELDS coin hmem hnone
  refine coindef_fold_error coin FIELDS ("signed_message_header", false) hmem
    ⟨Err.attributeError, ?_⟩ emptyProto
  rw [hnone]
  rfl

theorem C10_witness :
    ∃ e, coindef_from_dict [("signed_message_header", false)] (fun _ => none) =
      Except.error e :=
  C10_encoder_raises_on_missing_header.2.2.2
    [("signed_message_header", false)] (fun _ => none) (by simp) rfl

set_option maxRecDepth 4096 in
theorem masked_r_shift : ∀ r : Nat, r < 256 → (r &&& 0xF8) <<< 8 = (r >>> 3) <<< 11 := by
  decide

set_option maxRecDepth 4096 in
theorem masked_g_shift : ∀ g : Nat, g < 256 → (g &&& 0xFC) <<< 3 = (g >>> 2) <<< 5 := by
  decide

set_option maxRecDepth 4096 in
theorem masked_b_shift : ∀ b : Nat, b < 256 → (b &&& 0xF8) >>> 3 = b >>> 3 := by
  decide

theorem quant565_decomp (r g b : Nat) (hr : r < 256) (hg : g < 256)
    (hb : b < 256) :
    quant565 r g b = 2 ^ 11 * (r >>> 3) + (2 ^ 5 * (g >>> 2) + b >>> 3) ∧
    r >>> 3 < 32 ∧ g >>> 2 < 64 ∧ b >>> 3 < 32 ∧ quant565 r g b < 65536 := by
  have hr3 : r >>> 3 < 32 := by
    rw [Nat.shiftRight_eq_div_pow]; omega
  have hg2 : g >>> 2 < 64 := by
    rw [Nat.shiftRight_eq_div_pow]; omega
  have hb3 : b >>> 3 < 32 := by
    rw [Nat.shiftRight_eq_div_pow]; omega
  have hq : quant565 r g b = 2 ^ 11 * (r >>> 3) + (2 ^ 5 * (g >>> 2) + b >>> 3) := by
    unfold quant565
    rw [masked_r_shift r hr, masked_g_shift g hg, masked_b_shift b hb,
      Nat.lor_assoc]
    have h1 : (r >>> 3) <<< 11 = 2 ^ 11 * (r >>> 3) := by
      rw [Nat.shiftLeft_eq]; ring
    have h2 : (g >>> 2) <<< 5 = 2 ^ 5 * (g >>> 2) := by
      rw [Nat.shiftLeft_eq]; ring
    rw [h1, h2]
    have hz : b >>> 3 < 2 ^ 5 := hb3
    have hyz : 2 ^ 5 * (g >>> 2) + b >>> 3 < 2 ^ 11 := by omega
    rw [← Nat.mul_add_lt_is_or hz (g >>> 2), ← Nat.mul_add_lt_is_or hyz (r >>> 3)]
  refine ⟨hq, hr3, hg2, hb3, ?_⟩
  rw [hq]
  omega

theorem length_flatMap_const {α : Type} (f : α → List Nat) (n : Nat) :
    ∀ l : List α, (∀ a ∈ l, (f a).length = n) →
      (l.flatMap f).length = n * l.length := by
  intro l
  induction l with
  | nil => simp
  | cons a t ih =>
    intro h
    rw [List.flatMap_cons, List.length_append, h a (List.mem_cons_self _ _),
      ih (fun a ha => h a (List.mem_cons_of_mem _ ha))]
    simp [Nat.mul_succ, Nat.add_comm]

theorem iconPixelData_length (pix : PixMap) : (iconPixelData pix).length = 2048 := by
  unfold iconPixelData
  rw [length_flatMap_const _ 64]
  · simp [DIM]
  · intro y hy
    rw [length_flatMap_const _ 2]
    · simp [DIM]
    · intro x hx
      rfl

theorem stripZlib_spec (z : List Nat) (hz : 6 ≤ z.length) :
    stripZlib z = (z.drop 2).take (z.length - 6) ∧
    (stripZlib z).length = z.length - 6 := by
  constructor
  · rw [stripZlib, List.drop_take]
    congr 1
  · rw [stripZlib]
    simp only [List.length_drop, List.length_take]
    omega

/-- C9: `convert_icon` is exactly the chain: resize to the fixed 32 x 32
grid with LANCZOS, per-pixel alpha-composite onto the opaque black
background `(0,0,0,255)`, quantize each pixel to 16-bit 5-6-5 color
(`r >> 3` in bits 15-11, `g >> 2` in bits 10-5, `b >> 3` in bits 4-0) packed
big-endian in row-major order into a 2048-byte buffer, compress with
`zlib.compressobj(level=9, wbits=10)` (level 9 is zlib's maximum, window
size 2^10 is reduced from the default 2^15), and return the stream with its
first 2 header bytes and last 4 checksum bytes stripped. -/
theorem C9_convert_icon_pipeline {Img : Type} (L : IconLibs Img) (icon : Img) :
    (convert_icon L icon =
      stripZlib (L.compress 9 10 (iconPixelData (fun x y =>
        L.alphaComposite blackOpaque
          (L.resize icon (DIM, DIM) ResampleFilter.lanczos x y)))) ∧
     DIM = 32 ∧ blackOpaque.r.val = 0 ∧ blackOpaque.g.val = 0 ∧
     blackOpaque.b.val = 0 ∧ blackOpaque.a.val = 255) ∧
    (∀ pix : PixMap, (iconPixelData pix).length = 2048) ∧
    (∀ pix : PixMap, iconPixelData pix =
      (List.range DIM).flatMap (fun y => (List.range DIM).flatMap (fun x =>
        [quant565 (pix x y).r.val (pix x y).g.val (pix x y).b.val / 256,
         quant565 (pix x y).r.val (pix x y).g.val (pix x y).b.val % 256]))) ∧
    (∀ r g b : Nat, r < 256 → g < 256 → b < 256 →
      quant565 r g b = 2 ^ 11 * (r >>> 3) + (2 ^ 5 * (g >>> 2) + b >>> 3) ∧
      r >>> 3 < 32 ∧ g >>> 2 < 64 ∧ b >>> 3 < 32 ∧ quant565 r g b < 65536) ∧
    (∀ z : List Nat, 6 ≤ z.length →
      stripZlib z = (z.drop 2).take (z.length - 6) ∧
      (stripZlib z).length = z.length - 6) :=
  ⟨⟨rfl, rfl, rfl, rfl, rfl, rfl⟩, iconPixelData_length, fun _ => rfl,
    quant565_decomp, stripZlib_spec⟩

theorem C9_witness :
    (quant565 255 129 66 =
        2 ^ 11 * (255 >>> 3) + (2 ^ 5 * (129 >>> 2) + 66 >>> 3) ∧
      255 >>> 3 < 32 ∧ 129 >>> 2 < 64 ∧ 66 >>> 3 < 32 ∧
      quant565 255 129 66 < 65536) ∧
    stripZlib [0, 1, 2, 3, 4, 5, 6] = [2] ∧
    (stripZlib [0, 1, 2, 3, 4, 5, 6]).length = 1 :=
  ⟨(C9_convert_icon_pipeline wIconLibs ()).2.2.2.1 255 129 66
      (by decide) (by decide) (by decide),
    ((C9_convert_icon_pipeline wIconLibs ()).2.2.2.2 [0, 1, 2, 3, 4, 5, 6]
      (by decide)).1.trans rfl,
    ((C9_convert_icon_pipeline wIconLibs ()).2.2.2.2 [0, 1, 2, 3, 4, 5, 6]
      (by decide)).2⟩
